import Mathlib

/-!
Verification development for the comparison/scoring core and the n-gram
repetition remover of the youtube_miner repository.

Text is modelled as `List Char` (ASCII-focused model of Python `str`
operations). Floats are modelled as rationals. Functions whose Python
originals use index-based while loops are embedded with an explicit fuel
parameter equal to the input length, which is always sufficient because
every loop iteration consumes at least one position; this keeps every
definition structurally recursive and kernel-evaluable.
-/

/-- The apostrophe character, built from its code point. -/
def apos : Char := Char.ofNat 39

/-- Model of the Python whitespace class (ASCII subset relevant here). -/
def isPySpace (c : Char) : Bool :=
  c = ' ' || c.toNat = 9 || c.toNat = 10 || c.toNat = 11 || c.toNat = 12 || c.toNat = 13

/-- Model of the regex word-character class backslash-w (ASCII model). -/
def isWordChar (c : Char) : Bool :=
  c.isAlphanum || c = '_'

/-- Model of Python str.lower for a single character (ASCII model). -/
def pyToLower (c : Char) : Char :=
  if c.toNat ≥ 65 ∧ c.toNat ≤ 90 then Char.ofNat (c.toNat + 32) else c

/-- Model of Python str.strip: drop leading and trailing whitespace. -/
def pyStrip (l : List Char) : List Char :=
  ((l.dropWhile isPySpace).reverse.dropWhile isPySpace).reverse

/-- Fueled model of Python str.replace: left-to-right non-overlapping literal
substring replacement.  Fuel equal to the text length is always enough since
each step consumes at least one character. -/
def replaceAllF (p r : List Char) : Nat → List Char → List Char
  | 0, t => t
  | _ + 1, [] => []
  | fuel + 1, c :: rest =>
    if p ≠ [] ∧ p.isPrefixOf (c :: rest) then
      r ++ replaceAllF p r fuel ((c :: rest).drop p.length)
    else
      c :: replaceAllF p r fuel rest

/-- Python str.replace on character lists. -/
def replaceAll (p r t : List Char) : List Char :=
  replaceAllF p r t.length t

namespace TextNormalizer

/-- The five normalization flags of TextNormalizer. -/
structure Config where
  lowercase : Bool
  remove_punctuation : Bool
  collapse_whitespace : Bool
  numbers_to_words : Bool
  expand_contractions : Bool

/-- Default flags of the TextNormalizer constructor. -/
def defaultConfig : Config :=
  { lowercase := true, remove_punctuation := true, collapse_whitespace := true,
    numbers_to_words := false, expand_contractions := true }

/-- The contraction table, in Python dict insertion order. -/
def contractions : List (List Char × List Char) :=
  [ ("won".toList ++ [apos] ++ "t".toList, "will not".toList),
    ("can".toList ++ [apos] ++ "t".toList, "cannot".toList),
    ("n".toList ++ [apos] ++ "t".toList, " not".toList),
    ([apos] ++ "re".toList, " are".toList),
    ([apos] ++ "s".toList, " is".toList),
    ([apos] ++ "d".toList, " would".toList),
    ([apos] ++ "ll".toList, " will".toList),
    ([apos] ++ "ve".toList, " have".toList),
    ([apos] ++ "m".toList, " am".toList) ]

/-- Sequentially apply every contraction replacement, in table order. -/
def expandContractions (t : List Char) : List Char :=
  contractions.foldl (fun acc pr => replaceAll pr.1 pr.2 acc) t

/-- The NUMBER_WORDS digit table. -/
def numberWord (c : Char) : Option (List Char) :=
  if c = '0' then some "zero".toList
  else if c = '1' then some "one".toList
  else if c = '2' then some "two".toList
  else if c = '3' then some "three".toList
  else if c = '4' then some "four".toList
  else if c = '5' then some "five".toList
  else if c = '6' then some "six".toList
  else if c = '7' then some "seven".toList
  else if c = '8' then some "eight".toList
  else if c = '9' then some "nine".toList
  else none

/-- Per-character digit-to-word substitution. -/
def numbersToWords (t : List Char) : List Char :=
  t.foldr (fun c acc => (numberWord c).getD [c] ++ acc) []

/-- First phase of punctuation removal: every character that is not a word
character, whitespace, or an apostrophe becomes a space. -/
def punctToSpace (t : List Char) : List Char :=
  t.map fun c => if isWordChar c || isPySpace c || c = apos then c else ' '

/-- Fueled model of the second phase: the regex that rewrites a whitespace run
followed by an apostrophe, or an apostrophe followed by a whitespace run, to a
single space, scanning left to right. -/
def aposSubF : Nat → List Char → List Char
  | 0, t => t
  | _ + 1, [] => []
  | fuel + 1, c :: rest =>
    if isPySpace c then
      match (c :: rest).dropWhile isPySpace with
      | d :: tail =>
        if d = apos then ' ' :: aposSubF fuel tail
        else c :: aposSubF fuel rest
      | [] => c :: aposSubF fuel rest
    else if c = apos then
      match rest with
      | d :: _ =>
        if isPySpace d then ' ' :: aposSubF fuel (rest.dropWhile isPySpace)
        else c :: aposSubF fuel rest
      | [] => [c]
    else c :: aposSubF fuel rest

/-- Full punctuation removal: character-class sweep, then apostrophe cleanup. -/
def removePunctuation (t : List Char) : List Char :=
  aposSubF (punctToSpace t).length (punctToSpace t)

/-- Whitespace collapse: every whitespace run becomes a single space.  The
boolean records whether the current position is inside an already-emitted
run. -/
def wsCollapseGo : Bool → List Char → List Char
  | _, [] => []
  | b, c :: rest =>
    if isPySpace c then
      if b then wsCollapseGo true rest else ' ' :: wsCollapseGo true rest
    else c :: wsCollapseGo false rest

/-- Model of the final regex sub of whitespace runs followed by strip. -/
def collapseWhitespace (t : List Char) : List Char :=
  pyStrip (wsCollapseGo false t)

/-- TextNormalizer.normalize: the five conditional steps in source order. -/
def normalize (cfg : Config) (t : List Char) : List Char :=
  if t = [] then []
  else
    let t1 := if cfg.lowercase then t.map pyToLower else t
    let t2 := if cfg.expand_contractions then expandContractions t1 else t1
    let t3 := if cfg.numbers_to_words then numbersToWords t2 else t2
    let t4 := if cfg.remove_punctuation then removePunctuation t3 else t3
    if cfg.collapse_whitespace then collapseWhitespace t4 else t4

end TextNormalizer

/-- Model of Python str.split with no argument: split on whitespace runs,
discarding empty pieces.  The accumulator holds the current word reversed. -/
def splitWsAux : List Char → List Char → List (List Char)
  | cur, [] => if cur = [] then [] else [cur.reverse]
  | cur, c :: rest =>
    if isPySpace c then
      if cur = [] then splitWsAux [] rest else cur.reverse :: splitWsAux [] rest
    else splitWsAux (c :: cur) rest

/-- Python str.split on a character list. -/
def splitWs (t : List Char) : List (List Char) :=
  splitWsAux [] t

/-- Model of the Python space-join of a word list. -/
def joinWords : List (List Char) → List Char
  | [] => []
  | [w] => w
  | w :: rest => w ++ ' ' :: joinWords rest

/-- One row step of the Wagner-Fischer dynamic program: given the row for a
hypothesis prefix, produce the row after consuming one more element. -/
def levRowStep [DecidableEq α] (xs : List α) (y : α) (prev : List Nat) : List Nat :=
  let first := prev.headD 0 + 1
  let out := (xs.zip (prev.zip (prev.drop 1))).foldl
    (fun (acc : List Nat × Nat) p =>
      let cost := min (min (acc.2 + 1) (p.2.2 + 1))
        (p.2.1 + (if p.1 = y then 0 else 1))
      (cost :: acc.1, cost))
    ([], first)
  first :: out.1.reverse

/-- Unit-cost Levenshtein distance between two sequences: the (S+D+I) count of
the optimal alignment.  Models the alignment primitive of the jiwer library. -/
def editDistance [DecidableEq α] (xs ys : List α) : Nat :=
  (ys.foldl (fun row y => levRowStep xs y row) (List.range (xs.length + 1))).getLastD 0

/-- Clamp a rational to the unit interval, as min and max do in the source. -/
def clamp01 (q : ℚ) : ℚ := min 1 (max 0 q)

/-- Modelled from the spec: the jiwer word error rate, the Levenshtein-based
rate (S+D+I) divided by the reference word count (jiwer is an external
library; §4.2 of the spec fixes the algorithm as standard unit-cost
Levenshtein over tokens). -/
def jiwerWer (r h : List Char) : ℚ :=
  (editDistance (splitWs r) (splitWs h) : ℚ) / ((splitWs r).length : ℚ)

/-- Modelled from the spec: the jiwer character error rate, unit-cost
Levenshtein over characters divided by the reference character count. -/
def jiwerCer (r h : List Char) : ℚ :=
  (editDistance r h : ℚ) / ((r.length : ℚ))

namespace WERCalculator

/-- WERCalculator.calculate with the default normalizing constructor. -/
def calculate (reference hypothesis : List Char) : ℚ :=
  let r := TextNormalizer.normalize TextNormalizer.defaultConfig reference
  let h := TextNormalizer.normalize TextNormalizer.defaultConfig hypothesis
  if pyStrip r = [] then (if pyStrip h = [] then 0 else 1)
  else if pyStrip h = [] then 1
  else min 1 (max 0 (jiwerWer r h))

end WERCalculator

namespace CERCalculator

/-- CERCalculator.calculate with the default normalizing constructor. -/
def calculate (reference hypothesis : List Char) : ℚ :=
  let r := TextNormalizer.normalize TextNormalizer.defaultConfig reference
  let h := TextNormalizer.normalize TextNormalizer.defaultConfig hypothesis
  if pyStrip r = [] then (if pyStrip h = [] then 0 else 1)
  else if pyStrip h = [] then 1
  else min 1 (max 0 (jiwerCer r h))

end CERCalculator

namespace SemanticSimilarity

/-- SemanticSimilarity.calculate with the default normalizing constructor.
The embedding backend is an external collaborator; `rawSim` stands for the
cosine similarity the backend reports for a pair of non-empty normalized
texts (spec §4.3 defines only this contract). -/
def calculate (rawSim : List Char → List Char → ℚ)
    (text1 text2 : List Char) : ℚ :=
  let n1 := TextNormalizer.normalize TextNormalizer.defaultConfig text1
  let n2 := TextNormalizer.normalize TextNormalizer.defaultConfig text2
  if pyStrip n1 = [] ∨ pyStrip n2 = [] then
    (if pyStrip n1 = pyStrip n2 then 1 else 0)
  else max 0 (min 1 (rawSim n1 n2))

end SemanticSimilarity

/-- The hybrid SeMaScore formula shared by HybridScore and ComparisonResult. -/
def calcHybridScore (alpha wer semantic : ℚ) : ℚ :=
  alpha * (1 - min wer 1) + (1 - alpha) * semantic

/-- ComparisonResult after dataclass initialization (computed_at omitted:
it is a wall-clock timestamp, irrelevant to every claim here). -/
structure ComparisonResult where
  chunk_index : Int
  normalized_transcript : List Char
  normalized_caption : List Char
  wer : ℚ
  cer : ℚ
  semantic_similarity : ℚ
  hybrid_score : ℚ
deriving DecidableEq

/-- Dataclass construction followed by post-init: a missing hybrid score is
computed from wer and semantic similarity with the default alpha of 0.5. -/
def mkComparisonResult (chunkIndex : Int) (nt nc : List Char)
    (wer cer semantic : ℚ) (hybrid : Option ℚ) : ComparisonResult :=
  { chunk_index := chunkIndex, normalized_transcript := nt, normalized_caption := nc,
    wer := wer, cer := cer, semantic_similarity := semantic,
    hybrid_score := hybrid.getD (calcHybridScore (1/2) wer semantic) }

/-- Round half to even at integer resolution, the model of Python round. -/
def roundHalfEven (q : ℚ) : Int :=
  if q - ⌊q⌋ < 1/2 then ⌊q⌋
  else if q - ⌊q⌋ > 1/2 then ⌊q⌋ + 1
  else if Even ⌊q⌋ then ⌊q⌋ else ⌊q⌋ + 1

/-- Model of Python round(x, 4). -/
def round4 (q : ℚ) : ℚ :=
  (roundHalfEven (q * 10000) : ℚ) / 10000

/-- The dictionary produced by ComparisonResult.to_dict (computed_at again
omitted), with the numeric fields it actually stores. -/
structure ComparisonDict where
  chunk_index : Int
  normalized_transcript : List Char
  normalized_caption : List Char
  wer : ℚ
  cer : ℚ
  semantic_similarity : ℚ
  hybrid_score : Option ℚ
deriving DecidableEq

namespace ComparisonResult

/-- ComparisonResult.to_dict: rounds every float to 4 decimal places, and
serializes a falsy (zero) hybrid score as null. -/
def to_dict (r : ComparisonResult) : ComparisonDict :=
  { chunk_index := r.chunk_index,
    normalized_transcript := r.normalized_transcript,
    normalized_caption := r.normalized_caption,
    wer := round4 r.wer,
    cer := round4 r.cer,
    semantic_similarity := round4 r.semantic_similarity,
    hybrid_score := if r.hybrid_score = 0 then none else some (round4 r.hybrid_score) }

/-- ComparisonResult.from_dict: reconstruct through the dataclass
constructor, so a null hybrid score is recomputed by post-init. -/
def from_dict (d : ComparisonDict) : ComparisonResult :=
  mkComparisonResult d.chunk_index d.normalized_transcript d.normalized_caption
    d.wer d.cer d.semantic_similarity d.hybrid_score

end ComparisonResult

namespace HybridScore

/-- HybridScore.calculate for a scorer with weight `alpha`, default
normalization, and semantic backend `rawSim`: all four metrics. -/
def calculateMetrics (alpha : ℚ) (rawSim : List Char → List Char → ℚ)
    (reference hypothesis : List Char) : ℚ × ℚ × ℚ × ℚ :=
  let wer := WERCalculator.calculate reference hypothesis
  let cer := CERCalculator.calculate reference hypothesis
  let semantic := SemanticSimilarity.calculate rawSim reference hypothesis
  (wer, cer, semantic, calcHybridScore alpha wer semantic)

/-- HybridScore.compare: score one pair and build the ComparisonResult. -/
def compare (alpha : ℚ) (rawSim : List Char → List Char → ℚ)
    (reference hypothesis : List Char) (chunkIndex : Int) : ComparisonResult :=
  let m := calculateMetrics alpha rawSim reference hypothesis
  let normRef := TextNormalizer.normalize TextNormalizer.defaultConfig reference
  let normHyp := TextNormalizer.normalize TextNormalizer.defaultConfig hypothesis
  mkComparisonResult chunkIndex normHyp normRef m.1 m.2.1 m.2.2.1 (some m.2.2.2)

/-- HybridScore.compare_all: explicit length check, then independent scoring
of each pair with the 0-based position as chunk index. -/
def compare_all (alpha : ℚ) (rawSim : List Char → List Char → ℚ)
    (references hypotheses : List (List Char)) :
    Except (List Char) (List ComparisonResult) :=
  if references.length ≠ hypotheses.length then
    Except.error "Reference and hypothesis lists must have same length".toList
  else
    Except.ok ((references.zip hypotheses).enum.map
      fun p => compare alpha rawSim p.2.1 p.2.2 p.1)

end HybridScore

/-- The descending list [hi, hi-1, ..., lo], the model of a Python
range(hi, lo-1, -1); empty when hi < lo. -/
def rangeDesc (hi lo : Nat) : List Nat :=
  (List.range' lo (hi + 1 - lo)).reverse

namespace NGramDeduplicator

/-- Lowercase every character of a word, as the per-word lower calls do. -/
def pyLowerWord (w : List Char) : List Char :=
  w.map pyToLower

/-- Number of positions where two word windows agree (zip truncates). -/
def matchCount (seg1 seg2 : List (List Char)) : Nat :=
  (seg1.zip seg2).countP fun p => decide (p.1 = p.2)

/-- NGramDeduplicator._segments_similar on already-lowercased windows.  The
source compares matches against len(seg1) * 0.9 in float arithmetic; for
every window length the callers use (at most 25) that float comparison is
exactly the rational comparison 10 * matches >= 9 * len modelled here. -/
def segmentsSimilar (seg1 seg2 : List (List Char)) : Bool :=
  if seg1 = seg2 then true
  else if seg1.length ≠ seg2.length then false
  else if seg1.length ≥ 10 then decide (10 * matchCount seg1 seg2 ≥ 9 * seg1.length)
  else false

/-- The inner skip loop of _remove_segment_repetitions: consume every leading
window of size S similar to the original first window.  Fueled; fuel equal to
the list length always suffices. -/
def skipSimilarF (cur : List (List Char)) (S : Nat) : Nat → List (List Char) → List (List Char)
  | 0, ws => ws
  | fuel + 1, ws =>
    if S ≤ ws.length ∧ segmentsSimilar cur ((ws.take S).map pyLowerWord) then
      skipSimilarF cur S fuel (ws.drop S)
    else ws

/-- The outer scan of _remove_segment_repetitions, recast on suffixes: when a
window and the immediately following window are similar (case-insensitively),
keep the first, skip subsequent similar windows, and resume; otherwise emit
one word and move on.  Positions with no room for two windows are emitted
unchanged. -/
def removeSegRepF (S : Nat) : Nat → List (List Char) → List (List Char)
  | 0, ws => ws
  | _ + 1, [] => []
  | fuel + 1, w :: rest =>
    if 2 * S ≤ (w :: rest).length then
      if segmentsSimilar (((w :: rest).take S).map pyLowerWord)
          ((((w :: rest).drop S).take S).map pyLowerWord) then
        (w :: rest).take S ++
          removeSegRepF S fuel
            (skipSimilarF (((w :: rest).take S).map pyLowerWord) S
              ((w :: rest).drop S).length ((w :: rest).drop S))
      else w :: removeSegRepF S fuel rest
    else w :: rest

/-- NGramDeduplicator._remove_segment_repetitions. -/
def removeSegmentRepetitions (words : List (List Char)) (S : Nat) : List (List Char) :=
  removeSegRepF S words.length words

/-- The candidate segment sizes of _remove_large_repetitions: from
min(wordcount / 2, 25) down to 6, descending. -/
def segSizes (n : Nat) : List Nat :=
  rangeDesc (min (n / 2) 25) 6

/-- NGramDeduplicator._remove_large_repetitions. -/
def removeLargeRepetitions (t : List Char) : List Char :=
  let words := splitWs t
  if words.length < 10 then t
  else joinWords ((segSizes words.length).foldl removeSegmentRepetitions words)

/-- The inner skip loop of _remove_repeated_ngrams: exact-match version. -/
def skipEqF (cur : List (List Char)) (n : Nat) : Nat → List (List Char) → List (List Char)
  | 0, ws => ws
  | fuel + 1, ws =>
    if n ≤ ws.length ∧ (ws.take n).map pyLowerWord = cur then
      skipEqF cur n fuel (ws.drop n)
    else ws

/-- The scan of _remove_repeated_ngrams on suffixes: on an exact
(case-insensitive) adjacent repeat, keep one copy, jump past both windows,
skip further exact repeats, and resume scanning. -/
def removeNgramF (n : Nat) : Nat → List (List Char) → List (List Char)
  | 0, ws => ws
  | _ + 1, [] => []
  | fuel + 1, w :: rest =>
    if 2 * n ≤ (w :: rest).length then
      if (((w :: rest).take n).map pyLowerWord) =
          ((((w :: rest).drop n).take n).map pyLowerWord) then
        (w :: rest).take n ++
          removeNgramF n fuel
            (skipEqF (((w :: rest).take n).map pyLowerWord) n
              ((w :: rest).drop (2 * n)).length ((w :: rest).drop (2 * n)))
      else w :: removeNgramF n fuel rest
    else w :: rest

/-- NGramDeduplicator._remove_repeated_ngrams. -/
def removeRepeatedNgrams (t : List Char) (n : Nat) : List Char :=
  let words := splitWs t
  if words.length < 2 * n then t
  else joinWords (removeNgramF n words.length words)

/-- The keep-loop of _remove_consecutive_duplicates: drop a word equal
(case-insensitively) to the last kept word. -/
def rcdGo (prev : List Char) : List (List Char) → List (List Char)
  | [] => []
  | w :: rest =>
    if pyLowerWord w = pyLowerWord prev then rcdGo prev rest
    else w :: rcdGo w rest

/-- NGramDeduplicator._remove_consecutive_duplicates. -/
def removeConsecutiveDuplicates (t : List Char) : List Char :=
  match splitWs t with
  | [] => t
  | w :: rest => joinWords (w :: rcdGo w rest)

/-- NGramDeduplicator.deduplicate_text for window bounds minN and maxN
(defaults 1 and 30): blank input short-circuits to empty; then the four
passes in source order, then whitespace normalization. -/
def deduplicate_text (minN maxN : Nat) (t : List Char) : List Char :=
  if t = [] ∨ pyStrip t = [] then []
  else
    let t1 := removeLargeRepetitions t
    let t2 := (rangeDesc (min maxN 20) 5).foldl removeRepeatedNgrams t1
    let t3 := (rangeDesc 4 (minN + 1)).foldl removeRepeatedNgrams t2
    let t4 := removeConsecutiveDuplicates t3
    TextNormalizer.collapseWhitespace t4

end NGramDeduplicator

/-- Number of positions of t at which pat occurs as a contiguous block. -/
def countOccurrences (pat t : List Char) : Nat :=
  ((List.range (t.length + 1)).filter fun i => pat.isPrefixOf (t.drop i)).length

/-- Whether pat occurs contiguously anywhere in t. -/
def containsSub (pat t : List Char) : Bool :=
  (List.range (t.length + 1)).any fun i => pat.isPrefixOf (t.drop i)

/-- A ComparisonResult whose error rate needs more than 4 decimal places. -/
def tinyWerResult : ComparisonResult :=
  mkComparisonResult 0 [] [] (1/100000) 0 0 none

/-- C1: every ComparisonResult built by the scorer stores a hybrid score
equal to alpha * (1 - min(wer, 1)) + (1 - alpha) * semantic_similarity of
the wer and semantic similarity stored on the same result, with alpha the
configured weight for the compare path and the default 0.5 for a direct
construction with the hybrid score omitted. -/
theorem hybrid_score_always_derives_from_fields :
    (∀ (alpha : ℚ) (rawSim : List Char → List Char → ℚ) (ref hyp : List Char) (i : Int),
      (HybridScore.compare alpha rawSim ref hyp i).hybrid_score =
        alpha * (1 - min (HybridScore.compare alpha rawSim ref hyp i).wer 1) +
          (1 - alpha) * (HybridScore.compare alpha rawSim ref hyp i).semantic_similarity) ∧
    (∀ (ci : Int) (nt nc : List Char) (w c s : ℚ),
      (mkComparisonResult ci nt nc w c s none).hybrid_score =
        (1/2) * (1 - min w 1) + (1 - 1/2) * s) := by
  constructor
  · intro alpha rawSim ref hyp i
    rfl
  · intro ci nt nc w c s
    rfl

/-- C4: the code is not idempotent, contradicting the spec invariant: on the
input consisting of two apostrophes, a space and the letter x, one
normalization pass keeps a dangling apostrophe that a second pass removes. -/
theorem normalize_not_idempotent_at_apostrophes :
    TextNormalizer.normalize TextNormalizer.defaultConfig
        ([apos, apos] ++ " x".toList) = [apos] ++ " x".toList ∧
    TextNormalizer.normalize TextNormalizer.defaultConfig
        (TextNormalizer.normalize TextNormalizer.defaultConfig
          ([apos, apos] ++ " x".toList)) = "x".toList ∧
    TextNormalizer.normalize TextNormalizer.defaultConfig
        (TextNormalizer.normalize TextNormalizer.defaultConfig
          ([apos, apos] ++ " x".toList)) ≠
      TextNormalizer.normalize TextNormalizer.defaultConfig
        ([apos, apos] ++ " x".toList) := by
  refine ⟨by decide, by decide, by decide⟩

/-- C5 counterexample: with the default configuration the digits of the
scenario input are kept verbatim, so the output does not contain the
digit-derived word sequence onetwothree that the claim requires. -/
theorem normalize_default_keeps_digits :
    containsSub "onetwothree".toList
      (TextNormalizer.normalize TextNormalizer.defaultConfig
        ("Hello, World! It".toList ++ [apos] ++ "s 123.".toList)) = false := by
  decide

/-- C5 amended: with the default configuration (numbers_to_words false) the
scenario input normalizes to the single-spaced, lowercase, punctuation-free
string with the contraction expanded and the digits 123 kept verbatim; with
numbers_to_words enabled it instead contains onetwothree, the digit words
concatenated without separators. -/
theorem normalize_scenario_amended :
    TextNormalizer.normalize TextNormalizer.defaultConfig
        ("Hello, World! It".toList ++ [apos] ++ "s 123.".toList) =
      "hello world it is 123".toList ∧
    containsSub "123".toList
      (TextNormalizer.normalize TextNormalizer.defaultConfig
        ("Hello, World! It".toList ++ [apos] ++ "s 123.".toList)) = true ∧
    TextNormalizer.normalize
        { TextNormalizer.defaultConfig with numbers_to_words := true }
        ("Hello, World! It".toList ++ [apos] ++ "s 123.".toList) =
      "hello world it is onetwothree".toList ∧
    containsSub "onetwothree".toList
      (TextNormalizer.normalize
        { TextNormalizer.defaultConfig with numbers_to_words := true }
        ("Hello, World! It".toList ++ [apos] ++ "s 123.".toList)) = true := by
  refine ⟨by decide, by decide, by decide, by decide⟩

/-- C6 counterexample: to_dict rounds to 4 decimal places, so a result whose
wer is 1/100000 does not round-trip exactly through to_dict and from_dict. -/
theorem round_trip_not_exact :
    (ComparisonResult.from_dict (ComparisonResult.to_dict tinyWerResult)).wer ≠
      tinyWerResult.wer := by
  simp only [tinyWerResult, mkComparisonResult, ComparisonResult.to_dict,
    ComparisonResult.from_dict, Option.getD]
  norm_num [round4, roundHalfEven]

/-- C6 amended: the round trip through to_dict and from_dict reproduces each
numeric field rounded to 4 decimal places (hence exactly whenever the field
already has at most 4 decimal places): wer, cer and semantic_similarity come
back as their 4-decimal roundings, and hybrid_score comes back as its
4-decimal rounding unless it was the falsy value 0, in which case it is
serialized as null and recomputed by post-init from the rounded wer and
rounded semantic similarity. -/
theorem round_trip_rounds_to_4dp (r : ComparisonResult) :
    (ComparisonResult.from_dict (ComparisonResult.to_dict r)).chunk_index =
        r.chunk_index ∧
    (ComparisonResult.from_dict (ComparisonResult.to_dict r)).wer = round4 r.wer ∧
    (ComparisonResult.from_dict (ComparisonResult.to_dict r)).cer = round4 r.cer ∧
    (ComparisonResult.from_dict (ComparisonResult.to_dict r)).semantic_similarity =
        round4 r.semantic_similarity ∧
    (ComparisonResult.from_dict (ComparisonResult.to_dict r)).hybrid_score =
        (if r.hybrid_score = 0 then
          calcHybridScore (1/2) (round4 r.wer) (round4 r.semantic_similarity)
        else round4 r.hybrid_score) := by
  by_cases h : r.hybrid_score = 0 <;>
    simp [ComparisonResult.to_dict, ComparisonResult.from_dict, mkComparisonResult, h]

/-- C9: the concrete deduplication oracles of the spec: the stutter sentence
collapses to its four distinct words; the repeated bigram sentence retains
exactly one occurrence of hello world and no doubled bigram; empty and
whitespace-only input return the empty string. -/
theorem deduplicate_text_oracles :
    NGramDeduplicator.deduplicate_text 1 30
        "the the quick quick brown brown fox".toList = "the quick brown fox".toList ∧
    countOccurrences "hello world".toList
        (NGramDeduplicator.deduplicate_text 1 30
          "hello world hello world how are you".toList) = 1 ∧
    containsSub "hello world hello world".toList
      (NGramDeduplicator.deduplicate_text 1 30
        "hello world hello world how are you".toList) = false ∧
    NGramDeduplicator.deduplicate_text 1 30 [] = [] ∧
    NGramDeduplicator.deduplicate_text 1 30 "   ".toList = [] := by
  refine ⟨by decide, by decide, by decide, by decide, by decide⟩

theorem dropWhile_cons_head {α} (p : α → Bool) :
    ∀ (l : List α) c cs, l.dropWhile p = c :: cs → p c = false := by
  intro l
  induction l with
  | nil => intro c cs h; simp [List.dropWhile] at h
  | cons a l ih =>
    intro c cs h
    by_cases hp : p a
    · rw [List.dropWhile_cons_of_pos hp] at h
      exact ih c cs h
    · rw [List.dropWhile_cons_of_neg hp] at h
      obtain ⟨rfl, -⟩ := List.cons.inj h
      simpa using hp

theorem pyStrip_eq_nil_imp_allspace (l : List Char) (h : pyStrip l = []) :
    ∀ c ∈ l, isPySpace c := by
  intro c hc
  unfold pyStrip at h
  have h1 : (l.dropWhile isPySpace).reverse.dropWhile isPySpace = [] := by
    simpa using h
  have h3 : ∀ x ∈ l.dropWhile isPySpace, isPySpace x := fun x hx =>
    List.dropWhile_eq_nil_iff.mp h1 x (List.mem_reverse.mpr hx)
  rw [← List.takeWhile_append_dropWhile (p := isPySpace) (l := l)] at hc
  rcases List.mem_append.mp hc with h5 | h5
  · exact List.mem_takeWhile_imp h5
  · exact h3 c h5

theorem allspace_imp_pyStrip_eq_nil (l : List Char) (h : ∀ c ∈ l, isPySpace c) :
    pyStrip l = [] := by
  unfold pyStrip
  have : l.dropWhile isPySpace = [] := List.dropWhile_eq_nil_iff.mpr h
  simp [this]

theorem pyStrip_allspace_eq_nil (l : List Char) (h : ∀ c ∈ pyStrip l, isPySpace c) :
    pyStrip l = [] := by
  rcases hd : (l.dropWhile isPySpace).reverse.dropWhile isPySpace with _ | ⟨d, ds⟩
  · unfold pyStrip
    rw [hd]
    rfl
  · have hnd : isPySpace d = false := dropWhile_cons_head _ _ _ _ hd
    have hdmem : d ∈ pyStrip l := by
      unfold pyStrip
      rw [hd]
      simp
    have := h d hdmem
    rw [hnd] at this
    cases this

theorem normalize_default_shape (t : List Char) (h : t ≠ []) :
    TextNormalizer.normalize TextNormalizer.defaultConfig t =
      pyStrip (TextNormalizer.wsCollapseGo false
        (TextNormalizer.removePunctuation
          (TextNormalizer.expandContractions (t.map pyToLower)))) := by
  simp [TextNormalizer.normalize, TextNormalizer.defaultConfig,
    TextNormalizer.collapseWhitespace, h]

theorem normalize_default_strip_iff (t : List Char) :
    (pyStrip (TextNormalizer.normalize TextNormalizer.defaultConfig t) = []) ↔
      TextNormalizer.normalize TextNormalizer.defaultConfig t = [] := by
  constructor
  · intro h
    by_cases ht : t = []
    · simp [TextNormalizer.normalize, ht]
    · rw [normalize_default_shape t ht] at h ⊢
      exact pyStrip_allspace_eq_nil _ (pyStrip_eq_nil_imp_allspace _ h)
  · intro h
    rw [h]
    rfl

theorem splitWsAux_ne_nil_of_cur :
    ∀ (t cur : List Char), cur ≠ [] → splitWsAux cur t ≠ [] := by
  intro t
  induction t with
  | nil => intro cur h; simp [splitWsAux, h]
  | cons c rest ih =>
    intro cur h
    by_cases sp : isPySpace c
    · simp [splitWsAux, sp, h]
    · simp only [splitWsAux, sp, Bool.false_eq_true, if_false]
      exact ih (c :: cur) (by simp)

theorem splitWsAux_nil_imp_allspace :
    ∀ t : List Char, splitWsAux [] t = [] → ∀ c ∈ t, isPySpace c := by
  intro t
  induction t with
  | nil => intro _ c hc; cases hc
  | cons c rest ih =>
    intro h d hd
    by_cases sp : isPySpace c
    · simp only [splitWsAux, sp, if_true, if_pos rfl] at h
      rcases List.mem_cons.mp hd with rfl | hd'
      · exact sp
      · exact ih h d hd'
    · exfalso
      simp only [splitWsAux, sp, Bool.false_eq_true, if_false] at h
      exact splitWsAux_ne_nil_of_cur rest [c] (by simp) h

theorem splitWs_ne_nil_of_strip_ne_nil (t : List Char) (h : pyStrip t ≠ []) :
    splitWs t ≠ [] := by
  intro hsplit
  exact h (allspace_imp_pyStrip_eq_nil t (splitWsAux_nil_imp_allspace t hsplit))

theorem pyStrip_nil : pyStrip ([] : List Char) = [] := rfl

theorem clamp_comm (q : ℚ) : max 0 (min 1 q) = min 1 (max 0 q) := by
  simp only [min_def, max_def]
  split_ifs <;> linarith

theorem calcBranch (r h : List Char) (qc qs : ℚ)
    (hr : (pyStrip r = []) ↔ r = []) (hh : (pyStrip h = []) ↔ h = [])
    (hq : r ≠ [] → h ≠ [] → qc = qs) :
    (if pyStrip r = [] then (if pyStrip h = [] then (0:ℚ) else 1)
     else if pyStrip h = [] then 1 else min 1 (max 0 qc)) =
    (if r = [] ∧ h = [] then 0 else if r = [] ∨ h = [] then 1 else clamp01 qs) := by
  simp only [hr, hh]
  by_cases h1 : r = []
  · by_cases h2 : h = [] <;> simp [h1, h2, clamp01]
  · by_cases h2 : h = []
    · simp [h1, h2, clamp01]
    · simp [h1, h2, clamp01, hq h1 h2]

/-- C2: for every input pair, both error-rate calculators (after
normalization) return 0 when reference and hypothesis are both empty, 1 when
exactly one is empty, and otherwise the Levenshtein rate (S+D+I) over
max(1, reference length), clamped to the unit interval — word-level for WER,
character-level for CER. -/
theorem wer_cer_edge_and_clamped_rate (ref hyp : List Char) :
    WERCalculator.calculate ref hyp =
      (if TextNormalizer.normalize TextNormalizer.defaultConfig ref = [] ∧
          TextNormalizer.normalize TextNormalizer.defaultConfig hyp = [] then (0:ℚ)
       else if TextNormalizer.normalize TextNormalizer.defaultConfig ref = [] ∨
          TextNormalizer.normalize TextNormalizer.defaultConfig hyp = [] then 1
       else clamp01
         ((editDistance
             (splitWs (TextNormalizer.normalize TextNormalizer.defaultConfig ref))
             (splitWs (TextNormalizer.normalize TextNormalizer.defaultConfig hyp)) : ℚ) /
           ((max 1 (splitWs
             (TextNormalizer.normalize TextNormalizer.defaultConfig ref)).length : ℕ) : ℚ))) ∧
    CERCalculator.calculate ref hyp =
      (if TextNormalizer.normalize TextNormalizer.defaultConfig ref = [] ∧
          TextNormalizer.normalize TextNormalizer.defaultConfig hyp = [] then (0:ℚ)
       else if TextNormalizer.normalize TextNormalizer.defaultConfig ref = [] ∨
          TextNormalizer.normalize TextNormalizer.defaultConfig hyp = [] then 1
       else clamp01
         ((editDistance
             (TextNormalizer.normalize TextNormalizer.defaultConfig ref)
             (TextNormalizer.normalize TextNormalizer.defaultConfig hyp) : ℚ) /
           ((max 1
             (TextNormalizer.normalize TextNormalizer.defaultConfig ref).length : ℕ) : ℚ))) := by
  constructor
  · refine calcBranch _ _ _ _ (normalize_default_strip_iff ref)
      (normalize_default_strip_iff hyp) ?_
    intro hrne _
    have hstrip : pyStrip (TextNormalizer.normalize TextNormalizer.defaultConfig ref) ≠ [] :=
      fun hc => hrne ((normalize_default_strip_iff ref).mp hc)
    have hne := splitWs_ne_nil_of_strip_ne_nil _ hstrip
    have hlen : 1 ≤ (splitWs (TextNormalizer.normalize TextNormalizer.defaultConfig ref)).length := by
      cases hsp : splitWs (TextNormalizer.normalize TextNormalizer.defaultConfig ref) with
      | nil => exact absurd hsp hne
      | cons a l => simp
    unfold jiwerWer
    rw [Nat.max_eq_right hlen]
  · refine calcBranch _ _ _ _ (normalize_default_strip_iff ref)
      (normalize_default_strip_iff hyp) ?_
    intro hrne _
    have hlen : 1 ≤ (TextNormalizer.normalize TextNormalizer.defaultConfig ref).length := by
      cases hsp : TextNormalizer.normalize TextNormalizer.defaultConfig ref with
      | nil => exact absurd hsp hrne
      | cons a l => simp
    unfold jiwerCer
    rw [Nat.max_eq_right hlen]

/-- C8: the semantic similarity wrapper returns 1 when both normalized inputs
are empty and 0 when exactly one is, in those cases without consulting the
embedding backend at all (the result is the same for every backend), and in
the non-degenerate case returns the backend cosine value clamped to the unit
interval, so the result always lies in the unit interval. -/
theorem semantic_empty_and_clamp (rawSim : List Char → List Char → ℚ)
    (t1 t2 : List Char) :
    (SemanticSimilarity.calculate rawSim t1 t2 =
      (if TextNormalizer.normalize TextNormalizer.defaultConfig t1 = [] ∧
          TextNormalizer.normalize TextNormalizer.defaultConfig t2 = [] then 1
       else if TextNormalizer.normalize TextNormalizer.defaultConfig t1 = [] ∨
          TextNormalizer.normalize TextNormalizer.defaultConfig t2 = [] then 0
       else clamp01 (rawSim (TextNormalizer.normalize TextNormalizer.defaultConfig t1)
         (TextNormalizer.normalize TextNormalizer.defaultConfig t2)))) ∧
    (∀ otherSim : List Char → List Char → ℚ,
      (TextNormalizer.normalize TextNormalizer.defaultConfig t1 = [] ∨
        TextNormalizer.normalize TextNormalizer.defaultConfig t2 = []) →
      SemanticSimilarity.calculate rawSim t1 t2 =
        SemanticSimilarity.calculate otherSim t1 t2) ∧
    0 ≤ SemanticSimilarity.calculate rawSim t1 t2 ∧
    SemanticSimilarity.calculate rawSim t1 t2 ≤ 1 := by
  have uf : ∀ f : List Char → List Char → ℚ,
      SemanticSimilarity.calculate f t1 t2 =
        (if pyStrip (TextNormalizer.normalize TextNormalizer.defaultConfig t1) = [] ∨
            pyStrip (TextNormalizer.normalize TextNormalizer.defaultConfig t2) = [] then
          (if pyStrip (TextNormalizer.normalize TextNormalizer.defaultConfig t1) =
              pyStrip (TextNormalizer.normalize TextNormalizer.defaultConfig t2) then 1
           else 0)
         else max 0 (min 1 (f (TextNormalizer.normalize TextNormalizer.defaultConfig t1)
           (TextNormalizer.normalize TextNormalizer.defaultConfig t2)))) :=
    fun _ => rfl
  have e1 := normalize_default_strip_iff t1
  have e2 := normalize_default_strip_iff t2
  have main : ∀ f : List Char → List Char → ℚ,
      SemanticSimilarity.calculate f t1 t2 =
        (if TextNormalizer.normalize TextNormalizer.defaultConfig t1 = [] ∧
            TextNormalizer.normalize TextNormalizer.defaultConfig t2 = [] then 1
         else if TextNormalizer.normalize TextNormalizer.defaultConfig t1 = [] ∨
            TextNormalizer.normalize TextNormalizer.defaultConfig t2 = [] then 0
         else clamp01 (f (TextNormalizer.normalize TextNormalizer.defaultConfig t1)
           (TextNormalizer.normalize TextNormalizer.defaultConfig t2))) := by
    intro f
    rw [uf f]
    by_cases h1 : TextNormalizer.normalize TextNormalizer.defaultConfig t1 = []
    · by_cases h2 : TextNormalizer.normalize TextNormalizer.defaultConfig t2 = []
      · simp [e1.mpr h1, e2.mpr h2, h1, h2, pyStrip_nil]
      · have hs2 : pyStrip (TextNormalizer.normalize TextNormalizer.defaultConfig t2) ≠ [] :=
          fun hc => h2 (e2.mp hc)
        simp [e1.mpr h1, h1, h2, hs2, Ne.symm hs2, pyStrip_nil]
    · by_cases h2 : TextNormalizer.normalize TextNormalizer.defaultConfig t2 = []
      · have hs1 : pyStrip (TextNormalizer.normalize TextNormalizer.defaultConfig t1) ≠ [] :=
          fun hc => h1 (e1.mp hc)
        simp [e2.mpr h2, h1, h2, hs1, pyStrip_nil]
      · have hs1 : pyStrip (TextNormalizer.normalize TextNormalizer.defaultConfig t1) ≠ [] :=
          fun hc => h1 (e1.mp hc)
        have hs2 : pyStrip (TextNormalizer.normalize TextNormalizer.defaultConfig t2) ≠ [] :=
          fun hc => h2 (e2.mp hc)
        simp [h1, h2, hs1, hs2, clamp_comm, clamp01]
  refine ⟨main rawSim, ?_, ?_, ?_⟩
  · intro g hor
    rw [main rawSim, main g]
    rcases hor with h1 | h2
    · by_cases h2 : TextNormalizer.normalize TextNormalizer.defaultConfig t2 = [] <;>
        simp [h1, h2]
    · by_cases h1 : TextNormalizer.normalize TextNormalizer.defaultConfig t1 = [] <;>
        simp [h1, h2]
  · rw [main rawSim]
    split_ifs with hc1 hc2
    · norm_num
    · norm_num
    · exact le_min zero_le_one (le_max_left 0 _)
  · rw [main rawSim]
    split_ifs with hc1 hc2
    · norm_num
    · norm_num
    · exact min_le_left 1 _

/-- C8 witness: at concrete inputs with an empty first text, the degenerate
branch fires identically for two different backends. -/
theorem semantic_empty_and_clamp_witness :
    SemanticSimilarity.calculate (fun _ _ => 3) [] "a".toList =
      SemanticSimilarity.calculate (fun _ _ => 7) [] "a".toList :=
  (semantic_empty_and_clamp (fun _ _ => 3) [] "a".toList).2.1 (fun _ _ => 7)
    (Or.inl (by decide))

/-- C7: compare_all rejects length-mismatched inputs with the invalid
argument error (never zip-truncating), and on equal lengths returns one
result per pair, scored independently in input order with the 0-based
position as chunk index. -/
theorem compare_all_spec (alpha : ℚ) (rawSim : List Char → List Char → ℚ)
    (refs hyps : List (List Char)) :
    (refs.length ≠ hyps.length →
      HybridScore.compare_all alpha rawSim refs hyps =
        Except.error "Reference and hypothesis lists must have same length".toList) ∧
    (refs.length = hyps.length →
      ∃ out, HybridScore.compare_all alpha rawSim refs hyps = Except.ok out ∧
        out.length = refs.length ∧
        ∀ (i : Nat) (r h : List Char), refs[i]? = some r → hyps[i]? = some h →
          out[i]? = some (HybridScore.compare alpha rawSim r h i)) := by
  constructor
  · intro hne
    simp [HybridScore.compare_all, hne]
  · intro heq
    refine ⟨(refs.zip hyps).enum.map
      (fun p => HybridScore.compare alpha rawSim p.2.1 p.2.2 p.1), ?_, ?_, ?_⟩
    · simp [HybridScore.compare_all, heq]
    · simp [HybridScore.compare_all, heq, List.enum_length, List.length_zip]
    · intro i r h hr hh
      have hzip : (refs.zip hyps)[i]? = some (r, h) :=
        List.getElem?_zip_eq_some.mpr ⟨hr, hh⟩
      simp [HybridScore.compare_all, heq, List.getElem?_map, List.getElem?_enum, hzip]

/-- C7 witness: a concrete length mismatch produces the error, and a
concrete equal-length call produces a positional result list. -/
theorem compare_all_spec_witness :
    (HybridScore.compare_all (1/2) (fun _ _ => 0) ["a".toList] [] =
      Except.error "Reference and hypothesis lists must have same length".toList) ∧
    (∃ out, HybridScore.compare_all (1/2) (fun _ _ => 0) ["a".toList] ["b".toList] =
      Except.ok out ∧ out.length = 1 ∧
      ∀ (i : Nat) (r h : List Char),
        (["a".toList] : List (List Char))[i]? = some r →
        (["b".toList] : List (List Char))[i]? = some h →
        out[i]? = some (HybridScore.compare (1/2) (fun _ _ => 0) r h i)) := by
  constructor
  · exact (compare_all_spec (1/2) (fun _ _ => 0) ["a".toList] []).1 (by decide)
  · exact (compare_all_spec (1/2) (fun _ _ => 0) ["a".toList] ["b".toList]).2 rfl

/-- C3: the large-segment pass is a no-op below 10 words; otherwise it folds
the segment scan over the sizes from min(wordcount/2, 25) down to 6
inclusive, in strictly descending order; and two equal-length (lowercased)
windows count as similar exactly when they are identical or, only from
length 10 up, when at least 90 percent of their positions match. -/
theorem large_segment_pass_spec (t : List Char) :
    ((splitWs t).length < 10 → NGramDeduplicator.removeLargeRepetitions t = t) ∧
    (10 ≤ (splitWs t).length →
      NGramDeduplicator.removeLargeRepetitions t =
        joinWords ((NGramDeduplicator.segSizes (splitWs t).length).foldl
          NGramDeduplicator.removeSegmentRepetitions (splitWs t))) ∧
    (∀ S : Nat, S ∈ NGramDeduplicator.segSizes (splitWs t).length ↔
      (6 ≤ S ∧ S ≤ min ((splitWs t).length / 2) 25)) ∧
    List.Pairwise (· > ·) (NGramDeduplicator.segSizes (splitWs t).length) ∧
    (∀ seg1 seg2 : List (List Char), seg1.length = seg2.length →
      (NGramDeduplicator.segmentsSimilar seg1 seg2 = true ↔
        (seg1 = seg2 ∨ (10 ≤ seg1.length ∧
          9 * seg1.length ≤ 10 * NGramDeduplicator.matchCount seg1 seg2)))) := by
  refine ⟨?_, ?_, ?_, ?_, ?_⟩
  · intro h
    simp [NGramDeduplicator.removeLargeRepetitions, h]
  · intro h
    simp [NGramDeduplicator.removeLargeRepetitions, Nat.not_lt.mpr h]
  · intro S
    unfold NGramDeduplicator.segSizes rangeDesc
    rw [List.mem_reverse, List.mem_range'_1]
    omega
  · exact List.pairwise_reverse.mpr (List.pairwise_lt_range' _ _)
  · intro seg1 seg2 hlen
    by_cases heq : seg1 = seg2
    · simp [NGramDeduplicator.segmentsSimilar, heq]
    · by_cases h10 : 10 ≤ seg1.length
      · simp [NGramDeduplicator.segmentsSimilar, heq, hlen, h10, ge_iff_le]
      · simp [NGramDeduplicator.segmentsSimilar, heq, hlen, h10]

/-- C3 witness: below-threshold input is untouched; a ten-word input goes
through the descending fold; a concrete equal-length window pair
instantiates the similarity characterization. -/
theorem large_segment_pass_spec_witness :
    NGramDeduplicator.removeLargeRepetitions "a b".toList = "a b".toList ∧
    NGramDeduplicator.removeLargeRepetitions "a b c d e f g h i j".toList =
      joinWords ((NGramDeduplicator.segSizes
          (splitWs "a b c d e f g h i j".toList).length).foldl
        NGramDeduplicator.removeSegmentRepetitions
        (splitWs "a b c d e f g h i j".toList)) ∧
    (NGramDeduplicator.segmentsSimilar ["a".toList] ["b".toList] = true ↔
      (["a".toList] = ["b".toList] ∨
        (10 ≤ (["a".toList] : List (List Char)).length ∧
          9 * (["a".toList] : List (List Char)).length ≤
            10 * NGramDeduplicator.matchCount ["a".toList] ["b".toList]))) :=
  ⟨(large_segment_pass_spec "a b".toList).1 (by decide),
   (large_segment_pass_spec "a b c d e f g h i j".toList).2.1 (by decide),
   (large_segment_pass_spec "a b".toList).2.2.2.2 ["a".toList] ["b".toList] (by decide)⟩

theorem splitWsAux_words_prop :
    ∀ (t cur : List Char), (∀ c ∈ cur, ¬ isPySpace c) →
      ∀ w ∈ splitWsAux cur t, w ≠ [] ∧ ∀ c ∈ w, ¬ isPySpace c := by
  intro t
  induction t with
  | nil =>
    intro cur hcur w hw
    by_cases hc : cur = []
    · simp [splitWsAux, hc] at hw
    · simp only [splitWsAux, hc, if_false, List.mem_singleton] at hw
      subst hw
      exact ⟨by simpa using hc, fun c hc' => hcur c (List.mem_reverse.mp hc')⟩
  | cons c rest ih =>
    intro cur hcur w hw
    by_cases sp : isPySpace c
    · by_cases hc : cur = []
      · simp only [splitWsAux, sp, if_true, hc, if_pos rfl] at hw
        exact ih [] (by simp) w hw
      · simp only [splitWsAux, sp, if_true, hc, if_false, List.mem_cons] at hw
        rcases hw with rfl | hw
        · exact ⟨by simpa using hc, fun d hd => hcur d (List.mem_reverse.mp hd)⟩
        · exact ih [] (by simp) w hw
    · simp only [splitWsAux, sp, Bool.false_eq_true, if_false] at hw
      refine ih (c :: cur) ?_ w hw
      intro d hd
      rcases List.mem_cons.mp hd with rfl | hd'
      · simpa using sp
      · exact hcur d hd'

theorem splitWs_words (t : List Char) :
    ∀ w ∈ splitWs t, w ≠ [] ∧ ∀ c ∈ w, ¬ isPySpace c :=
  splitWsAux_words_prop t [] (by simp)

theorem splitWsAux_word_append (w : List Char) (hw : ∀ c ∈ w, ¬ isPySpace c) :
    ∀ (cur t : List Char), splitWsAux cur (w ++ t) = splitWsAux (w.reverse ++ cur) t := by
  induction w with
  | nil => intro cur t; simp
  | cons c w' ih =>
    intro cur t
    have hc : ¬ isPySpace c := hw c (by simp)
    have hw' : ∀ d ∈ w', ¬ isPySpace d := fun d hd => hw d (List.mem_cons_of_mem c hd)
    simp only [List.cons_append, splitWsAux, hc, Bool.false_eq_true, if_false]
    rw [show w'.append t = w' ++ t from rfl, ih hw' (c :: cur) t]
    simp [List.append_assoc]

theorem splitWs_joinWords :
    ∀ ws : List (List Char), (∀ w ∈ ws, w ≠ [] ∧ ∀ c ∈ w, ¬ isPySpace c) →
      splitWs (joinWords ws) = ws := by
  intro ws
  induction ws with
  | nil => intro _; rfl
  | cons w rest ih =>
    intro hprop
    obtain ⟨hne, hns⟩ := hprop w (by simp)
    cases rest with
    | nil =>
      show splitWsAux [] (joinWords [w]) = [w]
      have : joinWords [w] = w ++ [] := by simp [joinWords]
      rw [this, splitWsAux_word_append w hns [] []]
      simp [splitWsAux, hne]
    | cons r rs =>
      show splitWsAux [] (w ++ ' ' :: joinWords (r :: rs)) = w :: r :: rs
      rw [splitWsAux_word_append w hns [] (' ' :: joinWords (r :: rs))]
      have hsp : isPySpace ' ' = true := by decide
      have hrev : (w.reverse ++ [] : List Char) ≠ [] := by simpa using hne
      simp only [List.append_nil] at hrev ⊢
      simp only [splitWsAux, hsp, if_true, hrev, if_false, List.reverse_reverse]
      exact congrArg (fun l => w :: l) (ih fun v hv => hprop v (List.mem_cons_of_mem w hv))

namespace NGramDeduplicator

theorem skipSimilarF_sublist (cur : List (List Char)) (S : Nat) :
    ∀ (fuel : Nat) (ws : List (List Char)), List.Sublist (skipSimilarF cur S fuel ws) ws := by
  intro fuel
  induction fuel with
  | zero => intro ws; exact List.Sublist.refl ws
  | succ fuel ih =>
    intro ws
    unfold skipSimilarF
    split_ifs with h
    · exact (ih (ws.drop S)).trans (List.drop_sublist S ws)
    · exact List.Sublist.refl ws

theorem removeSegRepF_sublist (S : Nat) :
    ∀ (fuel : Nat) (ws : List (List Char)), List.Sublist (removeSegRepF S fuel ws) ws := by
  intro fuel
  induction fuel with
  | zero => intro ws; exact List.Sublist.refl ws
  | succ fuel ih =>
    intro ws
    cases ws with
    | nil => exact List.Sublist.refl []
    | cons w rest =>
      unfold removeSegRepF
      split_ifs with h1 h2
      · have hsub : List.Sublist
            ((w :: rest).take S ++
              removeSegRepF S fuel
                (skipSimilarF (((w :: rest).take S).map pyLowerWord) S
                  ((w :: rest).drop S).length ((w :: rest).drop S)))
            ((w :: rest).take S ++ (w :: rest).drop S) :=
          List.Sublist.append (List.Sublist.refl _)
            ((ih _).trans (skipSimilarF_sublist _ _ _ _))
        rwa [List.take_append_drop] at hsub
      · exact List.Sublist.cons₂ w (ih rest)
      · exact List.Sublist.refl _

theorem skipEqF_sublist (cur : List (List Char)) (n : Nat) :
    ∀ (fuel : Nat) (ws : List (List Char)), List.Sublist (skipEqF cur n fuel ws) ws := by
  intro fuel
  induction fuel with
  | zero => intro ws; exact List.Sublist.refl ws
  | succ fuel ih =>
    intro ws
    unfold skipEqF
    split_ifs with h
    · exact (ih (ws.drop n)).trans (List.drop_sublist n ws)
    · exact List.Sublist.refl ws

theorem removeNgramF_sublist (n : Nat) :
    ∀ (fuel : Nat) (ws : List (List Char)), List.Sublist (removeNgramF n fuel ws) ws := by
  intro fuel
  induction fuel with
  | zero => intro ws; exact List.Sublist.refl ws
  | succ fuel ih =>
    intro ws
    cases ws with
    | nil => exact List.Sublist.refl []
    | cons w rest =>
      unfold removeNgramF
      split_ifs with h1 h2
      · have hdd : (w :: rest).drop (2 * n) = ((w :: rest).drop n).drop n := by
          rw [List.drop_drop, two_mul]
        have htail : List.Sublist ((w :: rest).drop (2 * n)) ((w :: rest).drop n) := by
          rw [hdd]
          exact List.drop_sublist n _
        have hsub : List.Sublist
            ((w :: rest).take n ++
              removeNgramF n fuel
                (skipEqF (((w :: rest).take n).map pyLowerWord) n
                  ((w :: rest).drop (2 * n)).length ((w :: rest).drop (2 * n))))
            ((w :: rest).take n ++ (w :: rest).drop n) :=
          List.Sublist.append (List.Sublist.refl _)
            ((ih _).trans ((skipEqF_sublist _ _ _ _).trans htail))
        rwa [List.take_append_drop] at hsub
      · exact List.Sublist.cons₂ w (ih rest)
      · exact List.Sublist.refl _

theorem rcdGo_sublist : ∀ (l : List (List Char)) (prev : List Char),
    List.Sublist (rcdGo prev l) l := by
  intro l
  induction l with
  | nil => intro prev; exact List.Sublist.refl []
  | cons w rest ih =>
    intro prev
    unfold rcdGo
    split_ifs with h
    · exact (ih prev).trans (List.sublist_cons_self w rest)
    · exact List.Sublist.cons₂ w (ih w)

end NGramDeduplicator

theorem splitWsAux_dropWhile_space :
    ∀ t : List Char, splitWsAux [] (t.dropWhile isPySpace) = splitWsAux [] t := by
  intro t
  induction t with
  | nil => rfl
  | cons c rest ih =>
    by_cases sp : isPySpace c
    · rw [List.dropWhile_cons_of_pos sp, ih]
      simp [splitWsAux, sp]
    · rw [List.dropWhile_cons_of_neg sp]

theorem splitWsAux_allspace :
    ∀ (s cur : List Char), (∀ c ∈ s, isPySpace c) →
      splitWsAux cur s = if cur = [] then [] else [cur.reverse] := by
  intro s
  induction s with
  | nil => intro cur _; rfl
  | cons c s' ih =>
    intro cur hs
    have hc : isPySpace c := hs c (by simp)
    have hs' : ∀ d ∈ s', isPySpace d := fun d hd => hs d (List.mem_cons_of_mem c hd)
    have hnil := ih [] hs'
    simp only [if_pos rfl] at hnil
    by_cases hcur : cur = []
    · simp [splitWsAux, hc, hcur, hnil]
    · simp [splitWsAux, hc, hcur, hnil]

theorem splitWsAux_append_allspace :
    ∀ (t s cur : List Char), (∀ c ∈ s, isPySpace c) →
      splitWsAux cur (t ++ s) = splitWsAux cur t := by
  intro t
  induction t with
  | nil =>
    intro s cur hs
    rw [List.nil_append, splitWsAux_allspace s cur hs]
    rfl
  | cons c t' ih =>
    intro s cur hs
    by_cases sp : isPySpace c
    · by_cases hcur : cur = [] <;>
        simp [splitWsAux, sp, hcur, ih s _ hs]
    · simp [splitWsAux, sp, ih s _ hs]

theorem splitWs_pyStrip (t : List Char) : splitWs (pyStrip t) = splitWs t := by
  show splitWsAux [] (pyStrip t) = splitWsAux [] t
  rw [← splitWsAux_dropWhile_space t]
  set u := t.dropWhile isPySpace with hu
  have h2 := congrArg List.reverse
    (List.takeWhile_append_dropWhile (p := isPySpace) (l := u.reverse))
  rw [List.reverse_append, List.reverse_reverse] at h2
  have hall : ∀ c ∈ (u.reverse.takeWhile isPySpace).reverse, isPySpace c := fun c hc =>
    List.mem_takeWhile_imp (List.mem_reverse.mp hc)
  conv_rhs => rw [← h2]
  rw [splitWsAux_append_allspace _ _ _ hall]
  rfl

theorem splitWsAux_wsCollapse (t : List Char) :
    (∀ cur : List Char, splitWsAux cur (TextNormalizer.wsCollapseGo false t) =
      splitWsAux cur t) ∧
    splitWsAux [] (TextNormalizer.wsCollapseGo true t) = splitWsAux [] t := by
  induction t with
  | nil => exact ⟨fun cur => rfl, rfl⟩
  | cons c rest ih =>
    constructor
    · intro cur
      by_cases sp : isPySpace c
      · have hsp' : isPySpace ' ' = true := by decide
        by_cases hcur : cur = [] <;>
          simp [TextNormalizer.wsCollapseGo, splitWsAux, sp, hsp', hcur, ih.2]
      · simp [TextNormalizer.wsCollapseGo, splitWsAux, sp, ih.1]
    · by_cases sp : isPySpace c
      · simp [TextNormalizer.wsCollapseGo, splitWsAux, sp, ih.2]
      · simp [TextNormalizer.wsCollapseGo, splitWsAux, sp, ih.1]

theorem splitWs_collapseWhitespace (t : List Char) :
    splitWs (TextNormalizer.collapseWhitespace t) = splitWs t := by
  unfold TextNormalizer.collapseWhitespace
  rw [splitWs_pyStrip]
  exact (splitWsAux_wsCollapse t).1 []

theorem stage_ngram_sublist (t : List Char) (n : Nat) :
    List.Sublist (splitWs (NGramDeduplicator.removeRepeatedNgrams t n)) (splitWs t) := by
  simp only [NGramDeduplicator.removeRepeatedNgrams]
  split_ifs with h
  · exact List.Sublist.refl _
  · have hsub := NGramDeduplicator.removeNgramF_sublist n (splitWs t).length (splitWs t)
    rw [splitWs_joinWords _ fun w hw => splitWs_words t w (hsub.subset hw)]
    exact hsub

theorem fold_segmentRepetitions_sublist :
    ∀ (sizes : List Nat) (ws : List (List Char)),
      List.Sublist (sizes.foldl NGramDeduplicator.removeSegmentRepetitions ws) ws := by
  intro sizes
  induction sizes with
  | nil => intro ws; exact List.Sublist.refl ws
  | cons S rest ih =>
    intro ws
    exact (ih _).trans (NGramDeduplicator.removeSegRepF_sublist S ws.length ws)

theorem stage_large_sublist (t : List Char) :
    List.Sublist (splitWs (NGramDeduplicator.removeLargeRepetitions t)) (splitWs t) := by
  simp only [NGramDeduplicator.removeLargeRepetitions]
  split_ifs with h
  · exact List.Sublist.refl _
  · have hsub := fold_segmentRepetitions_sublist
      (NGramDeduplicator.segSizes (splitWs t).length) (splitWs t)
    rw [splitWs_joinWords _ fun w hw => splitWs_words t w (hsub.subset hw)]
    exact hsub

theorem stage_rcd_sublist (t : List Char) :
    List.Sublist (splitWs (NGramDeduplicator.removeConsecutiveDuplicates t)) (splitWs t) := by
  rcases heq : splitWs t with _ | ⟨w, rest⟩
  · simp only [NGramDeduplicator.removeConsecutiveDuplicates, heq]
    exact List.Sublist.refl []
  · simp only [NGramDeduplicator.removeConsecutiveDuplicates, heq]
    have hprop : ∀ v ∈ w :: NGramDeduplicator.rcdGo w rest,
        v ≠ [] ∧ ∀ c ∈ v, ¬ isPySpace c := by
      intro v hv
      rcases List.mem_cons.mp hv with rfl | hv'
      · exact splitWs_words t v (heq ▸ List.mem_cons_self v rest)
      · have : v ∈ rest := (NGramDeduplicator.rcdGo_sublist rest w).subset hv'
        exact splitWs_words t v (heq ▸ List.mem_cons_of_mem w this)
    rw [splitWs_joinWords _ hprop]
    exact List.Sublist.cons₂ w (NGramDeduplicator.rcdGo_sublist rest w)

theorem fold_ngrams_sublist : ∀ (ns : List Nat) (u : List Char),
    List.Sublist (splitWs (ns.foldl NGramDeduplicator.removeRepeatedNgrams u)) (splitWs u) := by
  intro ns
  induction ns with
  | nil => intro u; exact List.Sublist.refl _
  | cons n rest ih =>
    intro u
    exact (ih _).trans (stage_ngram_sublist u n)

/-- C10: the words of the deduplicated text form a subsequence of the words
of the input, for every window configuration: no pass introduces or reorders
words, and in particular the output word count never exceeds the input word
count. -/
theorem deduplicate_words_subsequence (minN maxN : Nat) (t : List Char) :
    List.Sublist (splitWs (NGramDeduplicator.deduplicate_text minN maxN t)) (splitWs t) ∧
    (splitWs (NGramDeduplicator.deduplicate_text minN maxN t)).length ≤
      (splitWs t).length := by
  have main : List.Sublist
      (splitWs (NGramDeduplicator.deduplicate_text minN maxN t)) (splitWs t) := by
    simp only [NGramDeduplicator.deduplicate_text]
    split_ifs with h
    · exact List.nil_sublist _
    · rw [splitWs_collapseWhitespace]
      refine (stage_rcd_sublist _).trans ?_
      refine (fold_ngrams_sublist _ _).trans ?_
      refine (fold_ngrams_sublist _ _).trans ?_
      exact stage_large_sublist t
  exact ⟨main, main.length_le⟩
